import Mathlib

/-!
Verification of the Confluence-space-to-Markdown exporter
(`confluence-to-md.py`) against its specification.

Strings are modelled as `List Char` (`Str`).  Python's `str` builtins used by
the program (`strip`, `isprintable`, `re.sub` over a character class,
`os.path.join` / `dirname` / `basename` / `relpath` / `abspath` /
`splitext`) are translated from their documented CPython/posixpath
semantics.  `isprintable` and `isspace` are exact on ASCII and on the
Unicode space/line/paragraph separators; Unicode format/surrogate/private
categories beyond the C0/C1 controls are not distinguished (no claim
depends on them).
-/

abbrev Str := List Char

/-- Python `str.isspace` for a single character: ASCII whitespace,
the C0 file/group/record/unit separators, NEL, and the Unicode
space/line/paragraph separators. -/
def pyIsSpace (c : Char) : Bool :=
  (9 ≤ c.toNat && c.toNat ≤ 13) || c.toNat = 32 ||
  (28 ≤ c.toNat && c.toNat ≤ 31) || c.toNat = 0x85 || c.toNat = 0xa0 ||
  c.toNat = 0x1680 || (0x2000 ≤ c.toNat && c.toNat ≤ 0x200a) ||
  c.toNat = 0x2028 || c.toNat = 0x2029 || c.toNat = 0x202f ||
  c.toNat = 0x205f || c.toNat = 0x3000

/-- Python `str.isprintable` for a single character: false for the C0 and C1
control blocks, DEL, and every whitespace separator other than the ASCII
space. -/
def pyIsPrintable (c : Char) : Bool :=
  32 ≤ c.toNat && c.toNat ≠ 127 && !(0x80 ≤ c.toNat && c.toNat ≤ 0x9f) &&
  (c.toNat = 32 || !(pyIsSpace c))

/-- Drop the longest suffix of elements satisfying `p`. -/
def dropTrailing (p : Char → Bool) (l : Str) : Str :=
  (l.reverse.dropWhile p).reverse

/-- Python `str.strip()`: remove leading and trailing whitespace. -/
def pyStrip (l : Str) : Str :=
  dropTrailing pyIsSpace (l.dropWhile pyIsSpace)

/-- The reserved characters of the sanitizer's regular expression
`[\\/*?:"<>|]` (source line 65). -/
def RESERVED : Str := ['\\', '/', '*', '?', ':', '\"', '<', '>', '|']

/-- One step of `re.sub(r'[\\/*?:"<>|]', "_", name)`: the substitution is
per character, so it is a `map`. -/
def replaceReserved (c : Char) : Char :=
  if RESERVED.contains c then '_' else c

/-- `ConfluenceExporter.sanitize_filename` (source lines 61-69):
strip surrounding whitespace, replace each reserved character with `_`,
drop non-printable characters, truncate to 200 characters. -/
def sanitize_filename (name : Str) : Str :=
  (((pyStrip name).map replaceReserved).filter pyIsPrintable).take 200

/-- Split a string at every `/`, keeping empty pieces (auxiliary, with the
current segment accumulated in reverse). -/
def segsAux : Str → Str → List Str
  | [], cur => [cur.reverse]
  | c :: rest, cur =>
    if c = '/' then cur.reverse :: segsAux rest [] else segsAux rest (c :: cur)

/-- All `/`-separated pieces of a path, empty pieces included. -/
def rawSegs (p : Str) : List Str := segsAux p []

/-- The nonempty `/`-separated components of a path (what
`[x for x in p.split(sep) if x]` computes inside `posixpath.relpath`). -/
def splitSegs (p : Str) : List Str := (rawSegs p).filter (fun s => !s.isEmpty)

/-- A path whose raw `/`-separated pieces are all nonempty: no leading or
trailing slash and no empty directory segment. -/
def noEmptySeg (p : Str) : Bool := (rawSegs p).all (fun s => !s.isEmpty)

/-- Two-argument `posixpath.join`: if `b` is absolute it wins; otherwise a
separator is inserted unless `a` is empty or already ends in one. -/
def pjoin (a b : Str) : Str :=
  if b.head? = some '/' then b
  else if a = [] || a.getLast? = some '/' then a ++ b
  else a ++ '/' :: b

/-- `os.path.join(*parts)` for a possibly empty list of parts; the program
calls it as `os.path.join(*parts) if parts else ""` (source line 209). -/
def joinParts : List Str → Str
  | [] => []
  | p :: ps => ps.foldl pjoin p

/-- `posixpath.dirname`: everything up to the final `/`, with trailing
slashes stripped unless the head consists only of slashes. -/
def dirname (p : Str) : Str :=
  let head := (p.reverse.dropWhile (fun c => c ≠ '/')).reverse
  if head = [] then []
  else if head.all (fun c => c = '/') then head
  else dropTrailing (fun c => c = '/') head

/-- `posixpath.basename`: everything after the final `/`. -/
def basename (p : Str) : Str :=
  (p.reverse.takeWhile (fun c => c ≠ '/')).reverse

/-- Index of the last occurrence of `c`, if any. -/
def lastIndexOf (c : Char) : Str → Option Nat
  | [] => none
  | x :: xs =>
    match lastIndexOf c xs with
    | some i => some (i + 1)
    | none => if x = c then some 0 else none

/-- The root part of `posixpath.splitext` (`splitext(p)[0]`): cut at the
last dot when it lies strictly after the last slash and the name does not
consist solely of leading dots. -/
def splitextRoot (p : Str) : Str :=
  match lastIndexOf '.' p with
  | none => p
  | some d =>
    let fi : Nat :=
      match lastIndexOf '/' p with
      | some s => s + 1
      | none => 0
    if d < fi then p
    else if ((p.drop fi).take (d - fi)).all (fun c => c = '.') then p
    else p.take d

/-- Normalisation of the segments of a relative path in the manner of
`posixpath.normpath`: `.` vanishes, `..` cancels a preceding real segment
and is kept when there is nothing left to cancel. -/
def normRel (segs : List Str) : List Str :=
  segs.foldl
    (fun acc s =>
      if s = ['.'] then acc
      else if s = ['.', '.'] then
        if acc = [] || acc.getLast? = some ['.', '.'] then acc ++ [s]
        else acc.dropLast
      else acc ++ [s])
    []

/-- Length of the longest common prefix of two segment lists
(`len(commonprefix([start_list, path_list]))`). -/
def commonLen : List Str → List Str → Nat
  | a :: as_, b :: bs => if a = b then commonLen as_ bs + 1 else 0
  | _, _ => 0

/-- `posixpath.relpath(path, start)` for relative inputs.  `relpath`
prepends the working directory to both arguments via `abspath`; that common
prefix cancels in the common-prefix computation, so the result does not
depend on it and the cwd is elided here.  Normalisation of `.` and `..`
segments follows `normpath` (the resolved page paths contain no such
segments unless a page title is itself `.` or `..`). -/
def relpath (path start : Str) : Str :=
  let ps := normRel (splitSegs path)
  let ss := normRel (splitSegs start)
  let i := commonLen ss ps
  let rel := List.replicate (ss.length - i) ['.', '.'] ++ ps.drop i
  match rel with
  | [] => ['.']
  | r :: rs => rs.foldl pjoin r

/-- Normalisation of the segments of an absolute path
(`posixpath.normpath` after `abspath`): `.` vanishes and `..` pops,
disappearing at the root. -/
def normAbs (segs : List Str) : List Str :=
  segs.foldl
    (fun acc s =>
      if s = ['.'] then acc
      else if s = ['.', '.'] then acc.dropLast
      else acc ++ [s])
    []

/-- Segments of `os.path.abspath(p)` under working directory `cwd`:
join with the cwd unless `p` is already absolute, then normalise. -/
def absSegs (cwd p : Str) : List Str :=
  if p.head? = some '/' then normAbs (splitSegs p)
  else normAbs (splitSegs cwd ++ splitSegs p)

/-- Join segments with `/` separators. -/
def joinSlash : List Str → Str
  | [] => []
  | s :: ss => s ++ ss.foldl (fun acc t => acc ++ '/' :: t) []

/-- The absolute path string denoted by a normalised segment list
(`"/"` for the empty list, as `normpath` returns). -/
def strOfAbs (segs : List Str) : Str := '/' :: joinSlash segs

/-- A page as consumed by `build_id_to_path_map`: its identifier, its title
(`none` when the `"title"` key is absent) and the titles of its ancestors,
root first (`none` when an ancestor has no title). -/
structure Page where
  id : Str
  title : Option Str
  ancestors : List (Option Str)

/-- The sanitized ancestor-title directory parts (source line 206):
`[sanitize_filename(a.get("title", "")) for a in ancestors if a.get("title")]`
— an ancestor whose title is absent or empty (falsy) is dropped. -/
def ancParts (ancestors : List (Option Str)) : List Str :=
  ancestors.filterMap
    (fun t =>
      match t with
      | some s => if s = [] then none else some (sanitize_filename s)
      | none => none)

/-- The sanitized own title (source line 207):
`p.get("title", f"page_{pid}")` defaults only when the key is absent. -/
def pageTitle (p : Page) : Str :=
  sanitize_filename
    (match p.title with
     | some t => t
     | none => "page_".data ++ p.id)

/-- The candidate relative path of a page (source lines 209-210):
joined sanitized ancestor titles, then `"{title}.md"`. -/
def candidatePath (p : Page) : Str :=
  pjoin (joinParts (ancParts p.ancestors)) (pageTitle p ++ ".md".data)

/-- The disambiguated relative path (source line 214): the page's own
identifier is appended to the filename stem, `"{title}-{pid}.md"`. -/
def suffixedPath (p : Page) : Str :=
  pjoin (joinParts (ancParts p.ancestors))
    (pageTitle p ++ '-' :: p.id ++ ".md".data)

/-- Association list standing for a Python dict with insertion order:
assignment to an existing key overwrites its value in place, otherwise the
pair is appended at the end. -/
def dinsert (m : List (Str × Str)) (k v : Str) : List (Str × Str) :=
  match m with
  | [] => [(k, v)]
  | kv :: rest => if kv.1 == k then (k, v) :: rest else kv :: dinsert rest k v

/-- Dict lookup: the value at key `k`, if present. -/
def dlookup (m : List (Str × Str)) (k : Str) : Option Str :=
  (m.find? (fun kv => kv.1 == k)).map (fun kv => kv.2)

/-- The values view of the dict (`mapping.values()`). -/
def dvalues (m : List (Str × Str)) : List Str := m.map (fun kv => kv.2)

/-- One iteration of the loop in `build_id_to_path_map`
(source lines 201-216): compute the candidate path, switch to the suffixed
path when the candidate is already among the mapped values, store. -/
def buildStep (m : List (Str × Str)) (p : Page) : List (Str × Str) :=
  let rel := if (dvalues m).contains (candidatePath p) then suffixedPath p
             else candidatePath p
  dinsert m p.id rel

/-- `ConfluenceExporter.build_id_to_path_map` (source lines 196-218). -/
def build_id_to_path_map (all_pages : List Page) : List (Str × Str) :=
  all_pages.foldl buildStep []

/-- An attachment record as consumed by `download_attachment`: the `title`
field (`none` when absent) and the `_links.download` locator
(`none` when absent). -/
structure Attachment where
  title : Option Str
  download : Option Str

/-- Filesystem effects performed by `download_attachment`, in order. -/
inductive FsOp where
  | mkdir : Str → FsOp
  | write : Str → FsOp
deriving DecidableEq

/-- Modelled from POSIX pathname resolution: opening a path for writing
creates a regular file only when its final `/`-piece is a real name; a
path whose final piece is empty, `.` or `..` resolves to a directory and
the `open` fails (the program catches the failure and returns `None`). -/
def canCreateFile (p : Str) : Bool :=
  match (rawSegs p).getLast? with
  | some s => decide (s ≠ [] ∧ s ≠ ['.'] ∧ s ≠ ['.', '.'])
  | none => false

/-- `ConfluenceExporter.download_attachment` (source lines 137-163) under
working directory `cwd`, returning the saved path (if any) and the
filesystem effects.  The network fetch is elided and assumed to succeed:
a transport failure only turns the result into `None` after the same path
computation, which no path claim depends on.  Python truthiness: a missing
or empty download locator returns immediately; a missing or empty title
falls back to the basename of the locator. -/
def download_attachment (att : Attachment) (save_dir cwd : Str) :
    Option Str × List FsOp :=
  match att.download with
  | none => (none, [])
  | some dl =>
    if dl = [] then (none, [])
    else
      let filename := sanitize_filename
        (match att.title with
         | some t => if t = [] then basename dl else t
         | none => basename dl)
      let final_path := pjoin save_dir filename
      let ops := [FsOp.mkdir save_dir]
      if !((strOfAbs (absSegs cwd save_dir)).isPrefixOf
            (strOfAbs (absSegs cwd final_path))) then (none, ops)
      else if canCreateFile final_path then
        (some final_path, ops ++ [FsOp.write final_path])
      else (none, ops)

mutual
/-- A parsed markup node: a string, or an element with a tag name, an
attribute dict and children (the tree `BeautifulSoup` hands to
`rewrite_content`; parsing and final serialisation are identity here). -/
inductive Node where
  | text : Str → Node
  | elem : Str → List (Str × Str) → NodeList → Node
/-- The children of an element, as a list of nodes. -/
inductive NodeList where
  | nil : NodeList
  | cons : Node → NodeList → NodeList
end

/-- Attribute lookup (`tag.get(name)`). -/
def getAttr (attrs : List (Str × Str)) (k : Str) : Option Str :=
  (attrs.find? (fun kv => kv.1 == k)).map (fun kv => kv.2)

/-- Attribute lookup on a node. -/
def nodeAttr (n : Node) (k : Str) : Option Str :=
  match n with
  | .text _ => none
  | .elem _ attrs _ => getAttr attrs k

/-- Attribute assignment (`tag[name] = v`); the passes only assign to
attributes already present, so overwriting in place is exact. -/
def setAttr (attrs : List (Str × Str)) (k v : Str) : List (Str × Str) :=
  attrs.map (fun kv => if kv.1 == k then (k, v) else kv)

/-- Python `x or y` over optional strings: `y` when `x` is absent or empty. -/
def orTruthy (a b : Option Str) : Option Str :=
  match a with
  | some s => if s = [] then b else some s
  | none => b

/-- `tag.get(name)` under a truthiness test: absent or empty means none. -/
def attrTruthy (n : Node) (k : Str) : Option Str :=
  match nodeAttr n k with
  | some v => if v = [] then none else some v
  | none => none

mutual
/-- `node.find(name)`: the first descendant element with the given tag,
in document order (the node itself excluded at the top call, which starts
from the children). -/
def findTagN (t : Str) : Node → Option Node
  | .text _ => none
  | .elem tag attrs cs =>
    if tag = t then some (.elem tag attrs cs) else findTagL t cs
/-- `find` over a list of sibling subtrees. -/
def findTagL (t : Str) : NodeList → Option Node
  | .nil => none
  | .cons n ns =>
    match findTagN t n with
    | some r => some r
    | none => findTagL t ns
end

mutual
/-- All descendant strings of a node, in document order. -/
def collectN : Node → List Str
  | .text s => [s]
  | .elem _ _ cs => collectL cs
/-- All descendant strings below a list of siblings. -/
def collectL : NodeList → List Str
  | .nil => []
  | .cons n ns => collectN n ++ collectL ns
end

/-- `tag.get_text()` over children: the concatenation of all descendant
strings. -/
def getTextL (cs : NodeList) : Str := (collectL cs).flatten

/-- `re.search(r'pageId=(\d+)', href)`: the digit run after the first
occurrence of `pageId=` that is followed by at least one digit
(`\d` taken as the ASCII digits the Confluence ids consist of). -/
def searchPageId : Str → Option Str
  | [] => none
  | c :: rest =>
    if "pageId=".data.isPrefixOf (c :: rest) then
      let ds := ((c :: rest).drop 7).takeWhile Char.isDigit
      if ds = [] then searchPageId rest else some ds
    else searchPageId rest

/-- `re.search(r'/download/attachments/[^/]+/([^/?#]+)', s)`: after the
first viable occurrence of the literal, one nonempty slash-free run, a
slash, then the captured nonempty `/?#`-free run. -/
def searchDownload : Str → Option Str
  | [] => none
  | c :: rest =>
    if "/download/attachments/".data.isPrefixOf (c :: rest) then
      let t := (c :: rest).drop 22
      let a := t.takeWhile (fun x => x ≠ '/')
      let t2 := t.drop a.length
      if a ≠ [] && t2.head? = some '/' then
        let b := (t2.drop 1).takeWhile (fun x => !(x = '/' || x = '?' || x = '#'))
        if b = [] then searchDownload rest else some b
      else searchDownload rest
    else searchDownload rest

/-- The href rewriting of pass 3 (source lines 266-282): a `pageId=` link
whose id resolves is pointed at the relative path (or the raw target path
when the owner is missing from the map, or when its path is empty); an
attachment-download href is pointed into the attachments directory,
overriding the former since the second search runs on the original href. -/
def rewriteHref (m : List (Str × Str)) (page_id attd href : Str) : Str :=
  let h1 :=
    match searchPageId href with
    | some tpid =>
      match dlookup m tpid with
      | some target_path =>
        match dlookup m page_id with
        | some c =>
          if c = [] then target_path else relpath target_path (dirname c)
        | none => target_path
      | none => href
    | none => href
  match searchDownload href with
  | some fn => pjoin attd (sanitize_filename fn)
  | none => h1

mutual
/-- Pass 1 of `rewrite_content` (source lines 225-235): an `ac:image`
holding an `ri:attachment` with a truthy filename becomes an `img` into the
attachments directory; otherwise a truthy `ri:url` value becomes an
external `img`; otherwise the element is kept and its children scanned. -/
def pass1N (attd : Str) : Node → Node
  | .text s => .text s
  | .elem tag attrs cs =>
    if tag = "ac:image".data then
      match findTagL "ri:attachment".data cs with
      | some ri =>
        match attrTruthy ri "ri:filename".data with
        | some fn =>
          Node.elem "img".data
            [("src".data, pjoin attd (sanitize_filename fn))] .nil
        | none =>
          match findTagL "ri:url".data cs with
          | some u =>
            match attrTruthy u "ri:value".data with
            | some v => Node.elem "img".data [("src".data, v)] .nil
            | none => Node.elem tag attrs (pass1L attd cs)
          | none => Node.elem tag attrs (pass1L attd cs)
      | none =>
        match findTagL "ri:url".data cs with
        | some u =>
          match attrTruthy u "ri:value".data with
          | some v => Node.elem "img".data [("src".data, v)] .nil
          | none => Node.elem tag attrs (pass1L attd cs)
        | none => Node.elem tag attrs (pass1L attd cs)
    else .elem tag attrs (pass1L attd cs)
/-- Pass 1 over siblings. -/
def pass1L (attd : Str) : NodeList → NodeList
  | .nil => .nil
  | .cons n ns => .cons (pass1N attd n) (pass1L attd ns)
end

mutual
/-- Pass 2 of `rewrite_content` (source lines 239-263): an `ac:link`
holding an `ri:page` is resolved through the path map — a resolvable
target yields an `a` element with the path relative to the owner page's
directory (display text synthesised from the target filename when blank);
a falsy or unresolvable target degrades to the plain display text. -/
def pass2N (m : List (Str × Str)) (page_id : Str) : Node → Node
  | .text s => .text s
  | .elem tag attrs cs =>
    if tag = "ac:link".data then
      match findTagL "ri:page".data cs with
      | some ri =>
        let text := getTextL cs
        match orTruthy (nodeAttr ri "ri:page-id".data)
            (nodeAttr ri "ri:content-title".data) with
        | some tpid =>
          if tpid = [] then .text text
          else
            match dlookup m tpid with
            | some target_path =>
              let rel :=
                match dlookup m page_id with
                | some c =>
                  if c = [] then basename target_path
                  else relpath target_path (dirname c)
                | none => basename target_path
              let text2 :=
                if pyStrip text = [] then splitextRoot (basename target_path)
                else text
              Node.elem "a".data [("href".data, rel)]
                (.cons (.text text2) .nil)
            | none => .text text
        | none => .text text
      | none => .elem tag attrs (pass2L m page_id cs)
    else .elem tag attrs (pass2L m page_id cs)
/-- Pass 2 over siblings. -/
def pass2L (m : List (Str × Str)) (page_id : Str) : NodeList → NodeList
  | .nil => .nil
  | .cons n ns => .cons (pass2N m page_id n) (pass2L m page_id ns)
end

mutual
/-- Pass 3 of `rewrite_content` (source lines 266-282): every `a` element
carrying an href gets it rewritten by `rewriteHref`. -/
def pass3N (m : List (Str × Str)) (page_id attd : Str) : Node → Node
  | .text s => .text s
  | .elem tag attrs cs =>
    let attrs2 :=
      if tag = "a".data then
        match getAttr attrs "href".data with
        | some href => setAttr attrs "href".data (rewriteHref m page_id attd href)
        | none => attrs
      else attrs
    .elem tag attrs2 (pass3L m page_id attd cs)
/-- Pass 3 over siblings. -/
def pass3L (m : List (Str × Str)) (page_id attd : Str) : NodeList → NodeList
  | .nil => .nil
  | .cons n ns => .cons (pass3N m page_id attd n) (pass3L m page_id attd ns)
end

mutual
/-- Pass 4 of `rewrite_content` (source lines 285-290): every `img` whose
src matches the attachment-download shape is pointed into the attachments
directory. -/
def pass4N (attd : Str) : Node → Node
  | .text s => .text s
  | .elem tag attrs cs =>
    let attrs2 :=
      if tag = "img".data then
        match getAttr attrs "src".data with
        | some src =>
          match searchDownload src with
          | some fn => setAttr attrs "src".data (pjoin attd (sanitize_filename fn))
          | none => attrs
        | none => attrs
      else attrs
    .elem tag attrs2 (pass4L attd cs)
/-- Pass 4 over siblings. -/
def pass4L (attd : Str) : NodeList → NodeList
  | .nil => .nil
  | .cons n ns => .cons (pass4N attd n) (pass4L attd ns)
end

mutual
/-- Pass 5 of `rewrite_content` (source lines 293-298): every remaining
element whose tag starts with `ac:` is flattened to its visible text,
space-separated (`get_text(separator=" ")`). -/
def pass5N : Node → Node
  | .text s => .text s
  | .elem tag attrs cs =>
    if "ac:".data.isPrefixOf tag then
      .text (List.intercalate [' '] (collectL cs))
    else .elem tag attrs (pass5L cs)
/-- Pass 5 over siblings. -/
def pass5L : NodeList → NodeList
  | .nil => .nil
  | .cons n ns => .cons (pass5N n) (pass5L ns)
end

/-- `ConfluenceExporter.rewrite_content` (source lines 220-300): the five
passes in program order over the parsed tree. -/
def rewrite_content (html_content : NodeList) (page_id : Str)
    (id_to_path : List (Str × Str)) (attachments_dirname : Str) : NodeList :=
  pass5L (pass4L attachments_dirname
    (pass3L id_to_path page_id attachments_dirname
      (pass2L id_to_path page_id
        (pass1L attachments_dirname html_content))))

theorem map_eq_self {α : Type} (f : α → α) (l : List α)
    (h : ∀ a ∈ l, f a = a) : l.map f = l := by
  induction l with
  | nil => rfl
  | cons x xs ih =>
    simp only [List.map_cons]
    rw [h x (by simp), ih (fun a ha => h a (by simp [ha]))]

theorem dropTrailing_sublist (p : Char → Bool) (l : Str) :
    List.Sublist (dropTrailing p l) l := by
  have h : List.Sublist (l.reverse.dropWhile p) l.reverse :=
    List.dropWhile_sublist p
  have h2 := h.reverse
  rwa [List.reverse_reverse] at h2

theorem pyStrip_sublist (l : Str) : List.Sublist (pyStrip l) l :=
  (dropTrailing_sublist pyIsSpace (l.dropWhile pyIsSpace)).trans
    (List.dropWhile_sublist pyIsSpace)

theorem mem_sanitize {c : Char} {s : Str} (h : c ∈ sanitize_filename s) :
    RESERVED.contains c = false ∧ pyIsPrintable c = true := by
  have h1 : c ∈ (((pyStrip s).map replaceReserved).filter pyIsPrintable) :=
    List.mem_of_mem_take h
  refine ⟨?_, List.of_mem_filter h1⟩
  have h2 : c ∈ ((pyStrip s).map replaceReserved) := List.mem_of_mem_filter h1
  rcases List.mem_map.mp h2 with ⟨a, _, ha⟩
  cases hcon : RESERVED.contains a with
  | true =>
    have hc : c = '_' := by
      rw [← ha]; unfold replaceReserved; exact if_pos hcon
    rw [hc]; decide
  | false =>
    have hc : c = a := by
      rw [← ha]; unfold replaceReserved
      exact if_neg (fun hh => by rw [hcon] at hh; exact Bool.noConfusion hh)
    rw [hc]; exact hcon

theorem sanitize_length_le (s : Str) : (sanitize_filename s).length ≤ 200 := by
  unfold sanitize_filename
  rw [List.length_take]
  exact min_le_left _ _

/-- C4: every output of `sanitize_filename` is free of the reserved
characters `\ / * ? : " < > |`, contains only printable characters, and
has length at most 200. -/
theorem c4_sanitizer_safety (s : Str) :
    ((sanitize_filename s).all
      (fun c => !RESERVED.contains c && pyIsPrintable c)) = true ∧
    (sanitize_filename s).length ≤ 200 := by
  refine ⟨List.all_eq_true.mpr ?_, sanitize_length_le s⟩
  intro c hc
  rcases mem_sanitize hc with ⟨h1, h2⟩
  have h3 : c ∉ RESERVED := by simpa using h1
  simp [h3, h2]

/-- C3 fails as stated: dropping a non-printable character can expose
trailing whitespace that only the next application strips, so
`sanitize_filename` is not idempotent at `"a \x00"`. -/
theorem c3_counterexample :
    sanitize_filename (sanitize_filename "a \x00".data) ≠
      sanitize_filename "a \x00".data := by decide

/-- C3 amended: a second application of `sanitize_filename` coincides with
stripping the surrounding whitespace of the first application's output;
in particular the sanitizer is idempotent exactly on the inputs whose
sanitized form has no leading or trailing whitespace. -/
theorem c3_sanitize_sanitize (s : Str) :
    sanitize_filename (sanitize_filename s) =
      pyStrip (sanitize_filename s) := by
  have hsub := pyStrip_sublist (sanitize_filename s)
  have hmap : (pyStrip (sanitize_filename s)).map replaceReserved =
      pyStrip (sanitize_filename s) := by
    refine map_eq_self _ _ (fun a ha => ?_)
    have h1 := (mem_sanitize (hsub.mem ha)).1
    unfold replaceReserved
    exact if_neg (fun hh => by rw [h1] at hh; exact Bool.noConfusion hh)
  have hfil : (pyStrip (sanitize_filename s)).filter pyIsPrintable =
      pyStrip (sanitize_filename s) :=
    List.filter_eq_self.mpr
      (fun a ha => (mem_sanitize (hsub.mem ha)).2)
  have hlen : (pyStrip (sanitize_filename s)).length ≤ 200 :=
    le_trans hsub.length_le (sanitize_length_le s)
  conv_lhs => rw [sanitize_filename]
  rw [hmap, hfil, List.take_of_length_le hlen]

theorem dlookup_dinsert_self (m : List (Str × Str)) (k v : Str) :
    dlookup (dinsert m k v) k = some v := by
  induction m with
  | nil => simp [dinsert, dlookup]
  | cons kv rest ih =>
    cases h1 : (kv.1 == k) with
    | true =>
      have e : dinsert (kv :: rest) k v = (k, v) :: rest := by
        simp [dinsert, h1]
      rw [e]
      unfold dlookup
      rw [List.find?_cons_of_pos _ (by simp)]
      rfl
    | false =>
      have e : dinsert (kv :: rest) k v = kv :: dinsert rest k v := by
        simp [dinsert, h1]
      rw [e]
      unfold dlookup
      rw [List.find?_cons_of_neg _ (by simp [h1])]
      exact ih

theorem dlookup_dinsert_ne (m : List (Str × Str)) (ki v k : Str)
    (h : ki ≠ k) :
    dlookup (dinsert m ki v) k = dlookup m k := by
  induction m with
  | nil => simp [dinsert, dlookup, beq_eq_false_iff_ne, h]
  | cons kv rest ih =>
    cases h1 : (kv.1 == ki) with
    | true =>
      have h2 : kv.1 = ki := by simpa using h1
      have e : dinsert (kv :: rest) ki v = (ki, v) :: rest := by
        simp [dinsert, h1]
      rw [e]
      unfold dlookup
      rw [List.find?_cons_of_neg _ (by simp [beq_eq_false_iff_ne, h]),
        List.find?_cons_of_neg _ (by simp [h2, beq_eq_false_iff_ne, h])]
    | false =>
      have e : dinsert (kv :: rest) ki v = kv :: dinsert rest ki v := by
        simp [dinsert, h1]
      rw [e]
      cases h5 : (kv.1 == k) with
      | true =>
        unfold dlookup
        rw [List.find?_cons_of_pos _ (by simp [h5]),
          List.find?_cons_of_pos _ (by simp [h5])]
      | false =>
        unfold dlookup
        rw [List.find?_cons_of_neg _ (by simp [h5]),
          List.find?_cons_of_neg _ (by simp [h5])]
        exact ih

theorem build_append_single (ps : List Page) (p : Page) :
    build_id_to_path_map (ps ++ [p]) =
      buildStep (build_id_to_path_map ps) p := by
  unfold build_id_to_path_map
  rw [List.foldl_append]
  rfl

theorem dlookup_foldl_not_mem (qs : List Page) (m : List (Str × Str))
    (k : Str) (h : k ∉ qs.map Page.id) :
    dlookup (qs.foldl buildStep m) k = dlookup m k := by
  induction qs generalizing m with
  | nil => rfl
  | cons q qs' ih =>
    have h1 : q.id ≠ k := by
      intro he; exact h (by simp [← he])
    have h2 : k ∉ qs'.map Page.id := by
      intro he; exact h (by simp [he])
    calc dlookup ((q :: qs').foldl buildStep m) k
        = dlookup (qs'.foldl buildStep (buildStep m q)) k := rfl
      _ = dlookup (buildStep m q) k := ih (buildStep m q) h2
      _ = dlookup m k := dlookup_dinsert_ne m q.id _ k h1

/-- C1 fails on the code: with input pages titled `X`, `X-2`, `X` (ids 9,
8, 2, no ancestors) the disambiguated path of the third page collides with
the second page's candidate path — the suffixed path is stored without
being re-checked against the existing values — so the distinct ids 8 and 2
are both mapped to `X-2.md` and the map is not injective. -/
theorem c1_path_map_not_injective :
    ("8".data ≠ "2".data) ∧
    dlookup (build_id_to_path_map
      [⟨"9".data, some "X".data, []⟩, ⟨"8".data, some "X-2".data, []⟩,
       ⟨"2".data, some "X".data, []⟩]) "8".data = some "X-2.md".data ∧
    dlookup (build_id_to_path_map
      [⟨"9".data, some "X".data, []⟩, ⟨"8".data, some "X-2".data, []⟩,
       ⟨"2".data, some "X".data, []⟩]) "2".data = some "X-2.md".data := by
  decide

/-- C7 fails as stated: for input pages titled `X`, `X`, `X-2` (ids 9, 2,
7) the page with id 7 is the first and only page whose candidate path is
`X-2.md`, yet it does not keep that short path, because the suffixed path
of the page with id 2 already occupies `X-2.md`. -/
theorem c7_counterexample :
    candidatePath ⟨"9".data, some "X".data, []⟩ ≠
      candidatePath ⟨"7".data, some "X-2".data, []⟩ ∧
    candidatePath ⟨"2".data, some "X".data, []⟩ ≠
      candidatePath ⟨"7".data, some "X-2".data, []⟩ ∧
    dlookup (build_id_to_path_map
      [⟨"9".data, some "X".data, []⟩, ⟨"2".data, some "X".data, []⟩,
       ⟨"7".data, some "X-2".data, []⟩]) "7".data ≠
      some (candidatePath ⟨"7".data, some "X-2".data, []⟩) := by
  decide

/-- C7 amended: pages are processed in input order, and a page receives
its candidate path exactly when the candidate does not already occur among
the values assigned to the pages before it (whether as a candidate or as a
suffixed form); otherwise it receives the candidate with its own
identifier appended to the filename stem. -/
theorem c7_order_policy (ps : List Page) (p : Page) :
    dlookup (build_id_to_path_map (ps ++ [p])) p.id =
      some (if (dvalues (build_id_to_path_map ps)).contains (candidatePath p)
            then suffixedPath p else candidatePath p) := by
  rw [build_append_single]
  unfold buildStep
  exact dlookup_dinsert_self _ _ _

/-- C10: the map built for `ps ++ qs` agrees with the map built for `ps`
on every identifier occurring in `ps`, provided the appended pages do not
reuse an identifier of `ps` (page identifiers are unique in the data
model); a page's resolved path depends only on it and the pages before
it. -/
theorem c10_prefix_stable (ps qs : List Page)
    (hdisj : ∀ i ∈ ps.map Page.id, i ∉ qs.map Page.id) :
    ∀ i ∈ ps.map Page.id,
      dlookup (build_id_to_path_map (ps ++ qs)) i =
        dlookup (build_id_to_path_map ps) i := by
  intro i hi
  unfold build_id_to_path_map
  rw [List.foldl_append]
  exact dlookup_foldl_not_mem qs _ i (hdisj i hi)

/-- Witness for C10 at a concrete input: appending a page with the same
title does not change the path assigned to the page before it. -/
theorem c10_prefix_stable_witness :
    dlookup (build_id_to_path_map
      ([⟨"1".data, some "A".data, []⟩] ++ [⟨"2".data, some "A".data, []⟩]))
      "1".data =
    dlookup (build_id_to_path_map [⟨"1".data, some "A".data, []⟩])
      "1".data :=
  c10_prefix_stable [⟨"1".data, some "A".data, []⟩]
    [⟨"2".data, some "A".data, []⟩] (by decide) "1".data (by decide)

theorem segsAux_append_slash (a b : Str) :
    ∀ cur, segsAux (a ++ '/' :: b) cur = segsAux a cur ++ rawSegs b := by
  induction a with
  | nil => intro cur; simp [segsAux, rawSegs]
  | cons c a' ih =>
    intro cur
    by_cases hc : c = '/'
    · subst hc
      simp [segsAux, rawSegs, ih]
    · simp [segsAux, hc, ih]

theorem rawSegs_append_slash (a b : Str) :
    rawSegs (a ++ '/' :: b) = rawSegs a ++ rawSegs b :=
  segsAux_append_slash a b []

theorem segsAux_no_slash (s : Str) (h : '/' ∉ s) :
    ∀ cur, segsAux s cur = [cur.reverse ++ s] := by
  induction s with
  | nil => intro cur; simp [segsAux]
  | cons c s' ih =>
    intro cur
    have hc : c ≠ '/' := fun he => h (he ▸ List.mem_cons_self c s')
    have h' : '/' ∉ s' := fun he => h (List.mem_cons_of_mem c he)
    simp only [segsAux, if_neg (fun he => hc (by simpa using he))]
    rw [ih h' (c :: cur)]
    simp

theorem rawSegs_no_slash (s : Str) (h : '/' ∉ s) : rawSegs s = [s] := by
  unfold rawSegs
  rw [segsAux_no_slash s h []]
  rfl

theorem noEmptySeg_nil : noEmptySeg [] = false := by decide

theorem noEmptySeg_single (s : Str) (hne : s ≠ []) (h : '/' ∉ s) :
    noEmptySeg s = true := by
  unfold noEmptySeg
  rw [rawSegs_no_slash s h]
  simp [hne]

theorem noEmptySeg_append (r s : Str) (hr : noEmptySeg r = true)
    (hs : s ≠ []) (h : '/' ∉ s) :
    noEmptySeg (r ++ '/' :: s) = true := by
  unfold noEmptySeg at *
  rw [rawSegs_append_slash, rawSegs_no_slash s h]
  simp only [List.all_append, hr, Bool.true_and]
  simp [hs]

theorem noEmptySeg_concat_slash (w : Str) :
    noEmptySeg (w ++ ['/']) = false := by
  unfold noEmptySeg
  have : ('/' : Char) :: ([] : Str) = '/' :: [] := rfl
  rw [show w ++ ['/'] = w ++ '/' :: [] from rfl, rawSegs_append_slash]
  simp [rawSegs, segsAux]

theorem exists_concat_of_getLast? (r : Str) (c : Char)
    (h : r.getLast? = some c) : ∃ w, r = w ++ [c] := by
  induction r using List.reverseRecOn with
  | nil => simp at h
  | append_singleton w x _ =>
    rw [List.getLast?_concat] at h
    have hxc : x = c := by simpa using h
    exact ⟨w, by rw [hxc]⟩

/-- Shape invariant of incrementally joined directory paths: empty, fully
segmented, or fully segmented with one trailing separator. -/
def goodDir (r : Str) : Prop :=
  r = [] ∨ noEmptySeg r = true ∨ ∃ w, r = w ++ ['/'] ∧ noEmptySeg w = true

theorem goodDir_of_no_slash (s : Str) (h : '/' ∉ s) : goodDir s := by
  by_cases hs : s = []
  · exact Or.inl hs
  · exact Or.inr (Or.inl (noEmptySeg_single s hs h))

theorem head?_ne_slash (s : Str) (h : '/' ∉ s) : s.head? ≠ some '/' := by
  cases s with
  | nil => simp
  | cons c s' =>
    intro he
    have : c = '/' := by simpa using he
    exact h (this ▸ List.mem_cons_self c s')

theorem pjoin_goodDir (r s : Str) (hgd : goodDir r) (hs : '/' ∉ s) :
    goodDir (pjoin r s) := by
  unfold pjoin
  rw [if_neg (head?_ne_slash s hs)]
  rcases hgd with hnil | hseg | ⟨w, hw, hwseg⟩
  · subst hnil
    rw [if_pos (by decide), List.nil_append]
    exact goodDir_of_no_slash s hs
  · have hne : r ≠ [] := fun he => by
      rw [he] at hseg; rw [noEmptySeg_nil] at hseg; exact Bool.noConfusion hseg
    have hlast : r.getLast? ≠ some '/' := by
      intro he
      rcases exists_concat_of_getLast? r '/' he with ⟨w, hw⟩
      rw [hw, noEmptySeg_concat_slash] at hseg
      exact Bool.noConfusion hseg
    rw [if_neg (by simp [hne, hlast])]
    by_cases hse : s = []
    · subst hse
      exact Or.inr (Or.inr ⟨r, rfl, hseg⟩)
    · exact Or.inr (Or.inl (noEmptySeg_append r s hseg hse hs))
  · have hlast : r.getLast? = some '/' := by rw [hw]; exact List.getLast?_concat w
    rw [if_pos (by simp [hlast])]
    subst hw
    by_cases hse : s = []
    · subst hse
      exact Or.inr (Or.inr ⟨w, by simp, hwseg⟩)
    · rw [List.append_assoc, List.singleton_append]
      exact Or.inr (Or.inl (noEmptySeg_append w s hwseg hse hs))

theorem foldl_pjoin_goodDir (parts : List Str) :
    ∀ r, goodDir r → (∀ s ∈ parts, '/' ∉ s) →
      goodDir (parts.foldl pjoin r) := by
  induction parts with
  | nil => intro r hr _; exact hr
  | cons p ps ih =>
    intro r hr h
    exact ih (pjoin r p)
      (pjoin_goodDir r p hr (h p (List.mem_cons_self p ps)))
      (fun s hsm => h s (List.mem_cons_of_mem p hsm))

theorem joinParts_goodDir (parts : List Str)
    (h : ∀ s ∈ parts, '/' ∉ s) : goodDir (joinParts parts) := by
  cases parts with
  | nil => exact Or.inl rfl
  | cons p ps =>
    unfold joinParts
    exact foldl_pjoin_goodDir ps p
      (goodDir_of_no_slash p (h p (List.mem_cons_self p ps)))
      (fun s hsm => h s (List.mem_cons_of_mem p hsm))

theorem noEmptySeg_pjoin_file (r f : Str) (hgd : goodDir r) (hf : f ≠ [])
    (hsl : '/' ∉ f) : noEmptySeg (pjoin r f) = true := by
  unfold pjoin
  rw [if_neg (head?_ne_slash f hsl)]
  rcases hgd with hnil | hseg | ⟨w, hw, hwseg⟩
  · subst hnil
    rw [if_pos (by decide), List.nil_append]
    exact noEmptySeg_single f hf hsl
  · have hne : r ≠ [] := fun he => by
      rw [he] at hseg; rw [noEmptySeg_nil] at hseg; exact Bool.noConfusion hseg
    have hlast : r.getLast? ≠ some '/' := by
      intro he
      rcases exists_concat_of_getLast? r '/' he with ⟨w, hw⟩
      rw [hw, noEmptySeg_concat_slash] at hseg
      exact Bool.noConfusion hseg
    rw [if_neg (by simp [hne, hlast])]
    exact noEmptySeg_append r f hseg hf hsl
  · have hlast : r.getLast? = some '/' := by rw [hw]; exact List.getLast?_concat w
    rw [if_pos (by simp [hlast])]
    subst hw
    rw [List.append_assoc, List.singleton_append]
    exact noEmptySeg_append w f hwseg hf hsl

theorem sanitize_no_slash (s : Str) : '/' ∉ sanitize_filename s := by
  intro h
  have h1 := (mem_sanitize h).1
  have h2 : RESERVED.contains '/' = true := by decide
  rw [h2] at h1
  exact Bool.noConfusion h1

theorem no_slash_append (a b : Str) (ha : '/' ∉ a) (hb : '/' ∉ b) :
    '/' ∉ a ++ b := by
  intro h
  rcases List.mem_append.mp h with h' | h'
  · exact ha h'
  · exact hb h'

theorem ancParts_no_slash (anc : List (Option Str)) :
    ∀ s ∈ ancParts anc, '/' ∉ s := by
  intro s hs
  rcases List.mem_filterMap.mp hs with ⟨o, _, ho⟩
  cases o with
  | none => simp at ho
  | some u =>
    by_cases hu : u = []
    · simp [hu] at ho
    · simp only [if_neg hu] at ho
      rw [← Option.some.inj ho]
      exact sanitize_no_slash u

theorem candidatePath_noEmptySeg (p : Page) :
    noEmptySeg (candidatePath p) = true := by
  unfold candidatePath
  refine noEmptySeg_pjoin_file _ _
    (joinParts_goodDir _ (ancParts_no_slash p.ancestors)) (by simp) ?_
  exact no_slash_append _ _ (sanitize_no_slash _) (by decide)

theorem suffixedPath_noEmptySeg (p : Page) (hid : '/' ∉ p.id) :
    noEmptySeg (suffixedPath p) = true := by
  unfold suffixedPath
  refine noEmptySeg_pjoin_file _ _
    (joinParts_goodDir _ (ancParts_no_slash p.ancestors)) (by simp) ?_
  refine no_slash_append _ _ ?_ (by decide)
  intro h
  rcases List.mem_append.mp h with h' | h'
  · exact sanitize_no_slash _ h'
  · rcases List.mem_cons.mp h' with h2 | h2
    · exact absurd h2 (by decide)
    · exact hid h2

theorem dvalues_dinsert (m : List (Str × Str)) (k v x : Str)
    (h : x ∈ dvalues (dinsert m k v)) : x ∈ dvalues m ∨ x = v := by
  induction m with
  | nil =>
    simp [dinsert, dvalues] at h
    exact Or.inr h
  | cons kv rest ih =>
    cases h1 : (kv.1 == k) with
    | true =>
      rw [show dinsert (kv :: rest) k v = (k, v) :: rest from by
        simp [dinsert, h1]] at h
      rcases List.mem_cons.mp h with h' | h'
      · exact Or.inr (by simpa using h')
      · exact Or.inl (List.mem_cons_of_mem _ h')
    | false =>
      rw [show dinsert (kv :: rest) k v = kv :: dinsert rest k v from by
        simp [dinsert, h1]] at h
      rcases List.mem_cons.mp h with h' | h'
      · exact Or.inl (by simp [dvalues, h'])
      · rcases ih h' with h2 | h2
        · exact Or.inl (List.mem_cons_of_mem _ h2)
        · exact Or.inr h2

theorem mem_values_foldl (ps : List Page) :
    ∀ m x, x ∈ dvalues (ps.foldl buildStep m) →
      x ∈ dvalues m ∨ ∃ p ∈ ps, x = candidatePath p ∨ x = suffixedPath p := by
  induction ps with
  | nil => intro m x h; exact Or.inl h
  | cons p ps' ih =>
    intro m x h
    rcases ih (buildStep m p) x h with h1 | ⟨q, hq, hx⟩
    · unfold buildStep at h1
      rcases dvalues_dinsert _ _ _ _ h1 with h2 | h2
      · exact Or.inl h2
      · refine Or.inr ⟨p, List.mem_cons_self p ps', ?_⟩
        by_cases hc : (dvalues m).contains (candidatePath p) = true
        · rw [h2, if_pos hc]; exact Or.inr rfl
        · rw [h2, if_neg hc]; exact Or.inl rfl
    · exact Or.inr ⟨q, List.mem_cons_of_mem p hq, hx⟩

theorem dlookup_some_mem_values (m : List (Str × Str)) (k pth : Str)
    (h : dlookup m k = some pth) : pth ∈ dvalues m := by
  unfold dlookup at h
  cases hf : m.find? (fun kv => kv.1 == k) with
  | none => rw [hf] at h; exact Option.noConfusion h
  | some kv =>
    rw [hf] at h
    have hkv : kv ∈ m := List.mem_of_find?_eq_some hf
    have : kv.2 = pth := by simpa using h
    rw [← this]
    exact List.mem_map.mpr ⟨kv, hkv, rfl⟩

/-- C8: a page with no title gets the synthetic filename `page_<id>.md`
derived from its identifier; an ancestor with no title contributes no path
segment; and (for inputs whose identifiers contain no separator, as
Confluence ids do) every path value of the resolver contains no empty
directory segment — no leading, trailing or doubled slash. -/
theorem c8_segments :
    (∀ i anc, candidatePath ⟨i, none, anc⟩ =
        pjoin (joinParts (ancParts anc))
          (sanitize_filename ("page_".data ++ i) ++ ".md".data)) ∧
    (∀ i t l1 l2, candidatePath ⟨i, t, l1 ++ none :: l2⟩ =
        candidatePath ⟨i, t, l1 ++ l2⟩) ∧
    (∀ ps, (∀ p ∈ ps, '/' ∉ p.id) → ∀ i pth,
        dlookup (build_id_to_path_map ps) i = some pth →
        noEmptySeg pth = true) := by
  refine ⟨fun i anc => rfl, fun i t l1 l2 => ?_, fun ps hids i pth hl => ?_⟩
  · unfold candidatePath ancParts
    simp only [List.filterMap_append, List.filterMap_cons]
    rfl
  · have hmem := dlookup_some_mem_values _ _ _ hl
    unfold build_id_to_path_map at hmem
    rcases mem_values_foldl ps [] pth hmem with h1 | ⟨p, hp, hx⟩
    · simp [dvalues] at h1
    · rcases hx with h2 | h2
      · rw [h2]; exact candidatePath_noEmptySeg p
      · rw [h2]; exact suffixedPath_noEmptySeg p (hids p hp)

/-- Witness for C8 at concrete inputs: a titleless page with a titleless
ancestor resolves to `R/page_5.md`, and the third part applies to a
two-page space, certifying `X.md` has no empty segment. -/
theorem c8_segments_witness :
    candidatePath ⟨"5".data, none, [some "R".data, none]⟩ =
      pjoin (joinParts (ancParts [some "R".data, none]))
        (sanitize_filename ("page_".data ++ "5".data) ++ ".md".data) ∧
    candidatePath ⟨"5".data, some "T".data, [some "R".data] ++ none :: []⟩ =
      candidatePath ⟨"5".data, some "T".data, [some "R".data] ++ []⟩ ∧
    noEmptySeg "X.md".data = true :=
  ⟨c8_segments.1 "5".data [some "R".data, none],
   c8_segments.2.1 "5".data (some "T".data) [some "R".data] [],
   c8_segments.2.2 [⟨"9".data, some "X".data, []⟩] (by decide) "9".data
     "X.md".data (by decide)⟩

/-- C9: an attachment record whose `_links.download` locator is absent
(or empty, which Python treats the same way) makes `download_attachment`
return `None` immediately: no directory is created and no file is
written. -/
theorem c9_no_locator (t : Option Str) (save_dir cwd : Str) :
    download_attachment ⟨t, none⟩ save_dir cwd = (none, []) ∧
    download_attachment ⟨t, some []⟩ save_dir cwd = (none, []) :=
  ⟨rfl, rfl⟩

theorem splitSegs_nil : splitSegs [] = [] := rfl

theorem splitSegs_no_slash (f : Str) (hsl : '/' ∉ f) (hne : f ≠ []) :
    splitSegs f = [f] := by
  unfold splitSegs
  rw [rawSegs_no_slash f hsl]
  simp [hne]

theorem normAbs_append_normal (xs : List Str) (f : Str) (h1 : f ≠ ['.'])
    (h2 : f ≠ ['.', '.']) : normAbs (xs ++ [f]) = normAbs xs ++ [f] := by
  unfold normAbs
  rw [List.foldl_append]
  simp [h1, h2]

theorem pjoin_nil_left (f : Str) (hsl : '/' ∉ f) : pjoin [] f = f := by
  unfold pjoin
  rw [if_neg (head?_ne_slash f hsl), if_pos (by decide)]
  rfl

theorem splitSegs_pjoin (sd f : Str) (hsl : '/' ∉ f) (hne : f ≠ []) :
    splitSegs (pjoin sd f) = splitSegs sd ++ [f] := by
  by_cases hsd : sd = []
  · subst hsd
    rw [pjoin_nil_left f hsl, splitSegs_no_slash f hsl hne, splitSegs_nil,
      List.nil_append]
  · by_cases hlast : sd.getLast? = some '/'
    · rcases exists_concat_of_getLast? sd '/' hlast with ⟨w, hw⟩
      have hp : pjoin sd f = sd ++ f := by
        unfold pjoin
        rw [if_neg (head?_ne_slash f hsl), if_pos (by simp [hlast])]
      rw [hp, hw, List.append_assoc, List.singleton_append]
      unfold splitSegs
      rw [rawSegs_append_slash, rawSegs_no_slash f hsl,
        show w ++ ['/'] = w ++ '/' :: [] from rfl, rawSegs_append_slash]
      simp [hne, rawSegs, segsAux]
    · have hp : pjoin sd f = sd ++ '/' :: f := by
        unfold pjoin
        rw [if_neg (head?_ne_slash f hsl), if_neg (by simp [hsd, hlast])]
      rw [hp]
      unfold splitSegs
      rw [rawSegs_append_slash, rawSegs_no_slash f hsl]
      simp [hne]

theorem head?_pjoin (sd f : Str) (hsl : '/' ∉ f) (hsd : sd ≠ []) :
    (pjoin sd f).head? = sd.head? := by
  unfold pjoin
  rw [if_neg (head?_ne_slash f hsl)]
  by_cases hc : sd.getLast? = some '/'
  · rw [if_pos (by simp [hc])]
    cases sd with
    | nil => exact absurd rfl hsd
    | cons c rest => rfl
  · rw [if_neg (by simp [hsd, hc])]
    cases sd with
    | nil => exact absurd rfl hsd
    | cons c rest => rfl

theorem absSegs_pjoin (cwd sd f : Str) (hsl : '/' ∉ f) (hne : f ≠ [])
    (h1 : f ≠ ['.']) (h2 : f ≠ ['.', '.']) :
    absSegs cwd (pjoin sd f) = absSegs cwd sd ++ [f] := by
  by_cases hsd : sd = []
  · subst hsd
    rw [pjoin_nil_left f hsl]
    unfold absSegs
    rw [if_neg (head?_ne_slash f hsl), if_neg (by simp),
      splitSegs_no_slash f hsl hne, splitSegs_nil, List.append_nil]
    exact normAbs_append_normal _ f h1 h2
  · unfold absSegs
    rw [head?_pjoin sd f hsl hsd]
    by_cases habs : sd.head? = some '/'
    · rw [if_pos habs, if_pos habs, splitSegs_pjoin sd f hsl hne]
      exact normAbs_append_normal _ f h1 h2
    · rw [if_neg habs, if_neg habs, splitSegs_pjoin sd f hsl hne,
        ← List.append_assoc]
      exact normAbs_append_normal _ f h1 h2

theorem rawSegs_pjoin_getLast (sd f : Str) (hsl : '/' ∉ f) :
    (rawSegs (pjoin sd f)).getLast? = some f := by
  by_cases hsd : sd = []
  · subst hsd
    rw [pjoin_nil_left f hsl, rawSegs_no_slash f hsl]
    rfl
  · by_cases hlast : sd.getLast? = some '/'
    · rcases exists_concat_of_getLast? sd '/' hlast with ⟨w, hw⟩
      have hp : pjoin sd f = sd ++ f := by
        unfold pjoin
        rw [if_neg (head?_ne_slash f hsl), if_pos (by simp [hlast])]
      rw [hp, hw, List.append_assoc, List.singleton_append,
        rawSegs_append_slash, rawSegs_no_slash f hsl]
      exact List.getLast?_concat _
    · have hp : pjoin sd f = sd ++ '/' :: f := by
        unfold pjoin
        rw [if_neg (head?_ne_slash f hsl), if_neg (by simp [hsd, hlast])]
      rw [hp, rawSegs_append_slash, rawSegs_no_slash f hsl]
      exact List.getLast?_concat _

theorem canCreateFile_pjoin_nil (sd : Str) :
    canCreateFile (pjoin sd []) = false := by
  by_cases hsd : sd = []
  · subst hsd; decide
  · by_cases hlast : sd.getLast? = some '/'
    · rcases exists_concat_of_getLast? sd '/' hlast with ⟨w, hw⟩
      have hp : pjoin sd [] = sd := by
        unfold pjoin
        rw [if_neg (by simp), if_pos (by simp [hlast]), List.append_nil]
      rw [hp, hw]
      unfold canCreateFile
      rw [show w ++ ['/'] = w ++ '/' :: [] from rfl, rawSegs_append_slash,
        show rawSegs [] = [[]] from rfl, List.getLast?_concat]
      simp
    · have hp : pjoin sd [] = sd ++ '/' :: [] := by
        unfold pjoin
        rw [if_neg (by simp), if_neg (by simp [hsd, hlast])]
      rw [hp]
      unfold canCreateFile
      rw [rawSegs_append_slash, show rawSegs [] = [[]] from rfl,
        List.getLast?_concat]
      simp

theorem canCreateFile_props (sd f : Str) (hsl : '/' ∉ f)
    (h : canCreateFile (pjoin sd f) = true) :
    f ≠ [] ∧ f ≠ ['.'] ∧ f ≠ ['.', '.'] := by
  by_cases hne : f = []
  · rw [hne, canCreateFile_pjoin_nil sd] at h
    exact Bool.noConfusion h
  · unfold canCreateFile at h
    rw [rawSegs_pjoin_getLast sd f hsl] at h
    exact of_decide_eq_true h

theorem isPrefixOf_append_self {α : Type} [BEq α] [LawfulBEq α]
    (l t : List α) : l.isPrefixOf (l ++ t) = true := by
  induction l with
  | nil => simp [List.isPrefixOf]
  | cons a l' ih => simp [List.isPrefixOf, ih]

/-- C2: `download_attachment` never returns or writes a path outside its
destination directory.  Any returned path, and any path written to, is
`save_dir` joined with one sanitized, slash-free, non-dot filename, so its
normalised absolute segments extend the directory's by exactly one
segment: the path lies strictly inside.  Contrapositively, whenever the
resolved absolute destination is not strictly inside the directory, the
call returns `None` and writes nothing. -/
theorem c2_attachment_containment (att : Attachment) (save_dir cwd p : Str)
    (h : (download_attachment att save_dir cwd).1 = some p ∨
         FsOp.write p ∈ (download_attachment att save_dir cwd).2) :
    (absSegs cwd save_dir).isPrefixOf (absSegs cwd p) = true ∧
    absSegs cwd p ≠ absSegs cwd save_dir := by
  unfold download_attachment at h
  cases hdl : att.download with
  | none => rw [hdl] at h; rcases h with h | h <;> simp at h
  | some dl =>
    rw [hdl] at h
    dsimp only at h
    by_cases hdle : dl = []
    · rw [if_pos hdle] at h
      rcases h with h | h <;> simp at h
    · rw [if_neg hdle] at h
      split at h
      · rcases h with h | h <;> simp at h
      · split at h
        next hcc =>
          have hp : p = pjoin save_dir
              (sanitize_filename
                (match att.title with
                 | some t => if t = [] then basename dl else t
                 | none => basename dl)) := by
            rcases h with h | h
            · exact (Option.some.inj h).symm
            · simp at h
              exact h
          have hsl : '/' ∉ sanitize_filename
              (match att.title with
               | some t => if t = [] then basename dl else t
               | none => basename dl) := sanitize_no_slash _
          rcases canCreateFile_props save_dir _ hsl hcc with ⟨h1, h2, h3⟩
          rw [hp, absSegs_pjoin cwd save_dir _ hsl h1 h2 h3]
          constructor
          · exact isPrefixOf_append_self _ _
          · intro he
            have := congrArg List.length he
            simp at this
        next =>
          rcases h with h | h <;> simp at h

/-- Witness for C2 at a concrete attachment: `diagram.png` saved under
`out/_attachments/7` from working directory `/w` lands strictly inside the
destination directory. -/
theorem c2_attachment_containment_witness :
    (absSegs "/w".data "out/_attachments/7".data).isPrefixOf
      (absSegs "/w".data "out/_attachments/7/diagram.png".data) = true ∧
    absSegs "/w".data "out/_attachments/7/diagram.png".data ≠
      absSegs "/w".data "out/_attachments/7".data :=
  c2_attachment_containment
    ⟨some "diagram.png".data, some "/download/attachments/7/diagram.png".data⟩
    "out/_attachments/7".data "/w".data
    "out/_attachments/7/diagram.png".data (Or.inl (by decide))

/-- C6: an internal page link (`ac:link` holding an `ri:page`) whose named
target is absent from the path map is replaced by its plain display text —
empty when no display text was given — with the link dropped, and the
whole-page rewrite still returns a result (the rewrite is a total
function, so no error can be raised). -/
theorem c6_dangling_link (m : List (Str × Str)) (page_id attd : Str)
    (attrs : List (Str × Str)) (cs : NodeList) (ri : Node) (tpid : Str)
    (himg : pass1L attd cs = cs)
    (hri : findTagL "ri:page".data cs = some ri)
    (ht : orTruthy (nodeAttr ri "ri:page-id".data)
        (nodeAttr ri "ri:content-title".data) = some tpid)
    (habs : dlookup m tpid = none) :
    rewrite_content (.cons (.elem "ac:link".data attrs cs) .nil)
        page_id m attd =
      .cons (.text (getTextL cs)) .nil := by
  have e1 : pass1N attd (Node.elem "ac:link".data attrs cs)
      = Node.elem "ac:link".data attrs cs := by
    unfold pass1N
    rw [if_neg (by decide), himg]
  have e2 : pass2N m page_id (Node.elem "ac:link".data attrs cs)
      = Node.text (getTextL cs) := by
    unfold pass2N
    rw [if_pos rfl, hri]
    dsimp only
    rw [ht]
    dsimp only
    by_cases he : tpid = []
    · rw [if_pos he]
    · rw [if_neg he, habs]
  show pass5L (pass4L attd (pass3L m page_id attd (pass2L m page_id
      (pass1L attd (.cons (.elem "ac:link".data attrs cs) .nil))))) = _
  rw [show pass1L attd
        (NodeList.cons (Node.elem "ac:link".data attrs cs) .nil)
      = NodeList.cons (pass1N attd (Node.elem "ac:link".data attrs cs)) .nil
      from rfl, e1,
    show pass2L m page_id
        (NodeList.cons (Node.elem "ac:link".data attrs cs) .nil)
      = NodeList.cons (pass2N m page_id (Node.elem "ac:link".data attrs cs))
          .nil from rfl, e2]
  rfl

/-- Witness for C6: a link to the unmapped id 99 with no display text
degrades to empty plain text, and the page rewrite completes. -/
theorem c6_dangling_link_witness :
    rewrite_content (.cons (.elem "ac:link".data []
        (.cons (.elem "ri:page".data [("ri:page-id".data, "99".data)] .nil)
         .nil)) .nil)
      "1".data [("1".data, "x/A.md".data)] "_attachments/1".data =
      .cons (.text []) .nil :=
  c6_dangling_link [("1".data, "x/A.md".data)] "1".data
    "_attachments/1".data []
    (.cons (.elem "ri:page".data [("ri:page-id".data, "99".data)] .nil) .nil)
    (.elem "ri:page".data [("ri:page-id".data, "99".data)] .nil)
    "99".data rfl rfl rfl rfl

/-- C5: an internal page link whose target id is in the path map, on an
owner page that itself resolves to a nonempty path, is rewritten to an
anchor whose href is the target's path relative to the owner page's own
directory, `relpath(pathMap[target], dirname(pathMap[owner]))`, keeping
the nonblank display text.  The side conditions state that the resulting
relative href is not itself of the page-id or attachment-download URL
shape, so the later generic-href pass leaves it unchanged.  The witness
certifies the two concrete layout cases `x/A.md -> x/y/B.md = y/B.md` and
`x/y/A.md -> x/B.md = ../B.md`. -/
theorem c5_relative_link (m : List (Str × Str)) (page_id attd : Str)
    (attrs : List (Str × Str)) (cs : NodeList) (ri : Node)
    (tpid target_path curr_path : Str)
    (himg : pass1L attd cs = cs)
    (hri : findTagL "ri:page".data cs = some ri)
    (ht : orTruthy (nodeAttr ri "ri:page-id".data)
        (nodeAttr ri "ri:content-title".data) = some tpid)
    (hne : tpid ≠ [])
    (htp : dlookup m tpid = some target_path)
    (hcp : dlookup m page_id = some curr_path)
    (hcne : curr_path ≠ [])
    (htext : pyStrip (getTextL cs) ≠ [])
    (hp1 : searchPageId (relpath target_path (dirname curr_path)) = none)
    (hp2 : searchDownload (relpath target_path (dirname curr_path)) = none) :
    rewrite_content (.cons (.elem "ac:link".data attrs cs) .nil)
        page_id m attd =
      .cons (.elem "a".data
        [("href".data, relpath target_path (dirname curr_path))]
        (.cons (.text (getTextL cs)) .nil)) .nil := by
  have e1 : pass1N attd (Node.elem "ac:link".data attrs cs)
      = Node.elem "ac:link".data attrs cs := by
    unfold pass1N
    rw [if_neg (by decide), himg]
  have e2 : pass2N m page_id (Node.elem "ac:link".data attrs cs)
      = Node.elem "a".data
          [("href".data, relpath target_path (dirname curr_path))]
          (.cons (.text (getTextL cs)) .nil) := by
    unfold pass2N
    rw [if_pos rfl, hri]
    dsimp only
    rw [ht]
    dsimp only
    rw [if_neg hne, htp]
    dsimp only
    rw [hcp]
    dsimp only
    rw [if_neg hcne, if_neg htext]
  have hrw : rewriteHref m page_id attd
      (relpath target_path (dirname curr_path)) =
      relpath target_path (dirname curr_path) := by
    unfold rewriteHref
    rw [hp1, hp2]
  have e3 : pass3N m page_id attd (Node.elem "a".data
        [("href".data, relpath target_path (dirname curr_path))]
        (.cons (.text (getTextL cs)) .nil))
      = Node.elem "a".data
          [("href".data, relpath target_path (dirname curr_path))]
          (.cons (.text (getTextL cs)) .nil) := by
    unfold pass3N
    rw [if_pos rfl]
    rw [show getAttr [("href".data, relpath target_path (dirname curr_path))]
        "href".data = some (relpath target_path (dirname curr_path))
        from rfl]
    dsimp only
    rw [hrw]
    rfl
  show pass5L (pass4L attd (pass3L m page_id attd (pass2L m page_id
      (pass1L attd (.cons (.elem "ac:link".data attrs cs) .nil))))) = _
  rw [show pass1L attd
        (NodeList.cons (Node.elem "ac:link".data attrs cs) .nil)
      = NodeList.cons (pass1N attd (Node.elem "ac:link".data attrs cs)) .nil
      from rfl, e1,
    show pass2L m page_id
        (NodeList.cons (Node.elem "ac:link".data attrs cs) .nil)
      = NodeList.cons (pass2N m page_id (Node.elem "ac:link".data attrs cs))
          .nil from rfl, e2,
    show ∀ n, pass3L m page_id attd (NodeList.cons n .nil)
      = NodeList.cons (pass3N m page_id attd n) .nil from fun n => rfl, e3]
  rfl

/-- Witness for C5 at the two concrete layouts of the specification: a
link from the page at `x/A.md` to the page at `x/y/B.md` is rewritten to
href `y/B.md`, and from `x/y/A.md` to `x/B.md` to href `../B.md`. -/
theorem c5_relative_link_witness :
    rewrite_content (.cons (.elem "ac:link".data []
        (.cons (.elem "ri:page".data [("ri:page-id".data, "2".data)] .nil)
         (.cons (.text "t".data) .nil))) .nil)
      "1".data [("1".data, "x/A.md".data), ("2".data, "x/y/B.md".data)]
      "_attachments/1".data =
      .cons (.elem "a".data [("href".data, "y/B.md".data)]
        (.cons (.text "t".data) .nil)) .nil ∧
    rewrite_content (.cons (.elem "ac:link".data []
        (.cons (.elem "ri:page".data [("ri:page-id".data, "2".data)] .nil)
         (.cons (.text "t".data) .nil))) .nil)
      "1".data [("1".data, "x/y/A.md".data), ("2".data, "x/B.md".data)]
      "_attachments/1".data =
      .cons (.elem "a".data [("href".data, "../B.md".data)]
        (.cons (.text "t".data) .nil)) .nil := by
  constructor
  · exact c5_relative_link
      [("1".data, "x/A.md".data), ("2".data, "x/y/B.md".data)]
      "1".data "_attachments/1".data []
      (.cons (.elem "ri:page".data [("ri:page-id".data, "2".data)] .nil)
       (.cons (.text "t".data) .nil))
      (.elem "ri:page".data [("ri:page-id".data, "2".data)] .nil)
      "2".data "x/y/B.md".data "x/A.md".data
      rfl rfl rfl (by decide) rfl rfl (by decide) (by decide)
      (by decide) (by decide)
  · exact c5_relative_link
      [("1".data, "x/y/A.md".data), ("2".data, "x/B.md".data)]
      "1".data "_attachments/1".data []
      (.cons (.elem "ri:page".data [("ri:page-id".data, "2".data)] .nil)
       (.cons (.text "t".data) .nil))
      (.elem "ri:page".data [("ri:page-id".data, "2".data)] .nil)
      "2".data "x/B.md".data "x/y/A.md".data
      rfl rfl rfl (by decide) rfl rfl (by decide) (by decide)
      (by decide) (by decide)
